import Mathlib

/-!
Verification of the crawler orchestration core (Go sources) against its
natural-language specification.  The Go code is shallowly embedded: each
relevant function is translated into an executable Lean definition;
wall-clock instants are passed explicitly as integer parameters, the
pagination loops are run with explicit fuel, and the non-reentrant
mutex of the checkpoint manager is modelled by an explicit Boolean
lock state where a blocked acquisition is `Option.none`.
-/

namespace AgriCrawler

/-! ## Pagination walker (crawlUserVideos / crawlVideoComments) -/

/-- Result of one call of the scraper fetch operation
(GetUserVideos / GetVideoComments): either an error, or success carrying
the next-page cursor.  The returned items are irrelevant to the
termination claims and are omitted. -/
inductive FetchResult where
  | err : FetchResult
  | ok (nextCursor : String) : FetchResult
deriving DecidableEq, Repr

/-- The loop-exit test of the source:
nextCursor == "" or nextCursor == cursor. -/
def isTerminalNext (cursor next : String) : Bool :=
  next == "" || next == cursor

/-- The cursor loop shared by crawlUserVideos and crawlVideoComments,
run on a fetch function that is deterministic in the cursor.  Returns the
list of cursors submitted to fetch, in call order, or none if the fuel
ran out before the loop exited.  On error the retry counter is
incremented and the same cursor retried until it exceeds retries; on
success the retry counter resets to 0 and the loop exits when the next
cursor is terminal. -/
def paginationTrace (f : String → FetchResult) (retries : Nat) :
    Nat → String → Nat → Option (List String)
  | 0, _, _ => none
  | fuel + 1, cursor, retryCount =>
    match f cursor with
    | .err =>
      if retries < retryCount + 1 then some [cursor]
      else (paginationTrace f retries fuel cursor (retryCount + 1)).map (cursor :: ·)
    | .ok next =>
      if isTerminalNext cursor next then some [cursor]
      else (paginationTrace f retries fuel next 0).map (cursor :: ·)

/-- crawlUserVideos: the pagination loop started at cursor "" with
retry count 0 (source lines 112-160 of the main file). -/
def crawlUserVideosTrace (f : String → FetchResult) (retries fuel : Nat) :
    Option (List String) :=
  paginationTrace f retries fuel "" 0

/-- crawlVideoComments: identical loop structure started at cursor ""
with retry count 0 (source lines 163-200 of the main file). -/
def crawlVideoCommentsTrace (f : String → FetchResult) (retries fuel : Nat) :
    Option (List String) :=
  paginationTrace f retries fuel "" 0

/-- One successful non-terminal page advance: none when the loop would
stop at this cursor (error, empty next cursor, or unchanged cursor). -/
def pageStep (f : String → FetchResult) (c : String) : Option String :=
  match f c with
  | .err => none
  | .ok next => if isTerminalNext c next then none else some next

/-- The sequence of distinct cursors the loop visits when started at
cursor c0. -/
def pageOrbitFrom (f : String → FetchResult) (c0 : String) : Nat → Option String
  | 0 => some c0
  | k + 1 => (pageOrbitFrom f c0 k).bind (pageStep f)

/-- The cursor sequence of the real loops, which start at "". -/
def pageOrbit (f : String → FetchResult) (k : Nat) : Option String :=
  pageOrbitFrom f "" k

example : pageOrbit (fun c => if c == "" then .ok "c1" else .ok "c1") 1 = some "c1" := by
  decide

example :
    crawlUserVideosTrace (fun c => if c == "" then .ok "c1" else .ok "c1") 3 5 =
      some ["", "c1"] := by
  decide

lemma pageOrbitFrom_succ_front (f : String → FetchResult) (c0 : String) (k : Nat) :
    pageOrbitFrom f c0 (k + 1) =
      (pageStep f c0).bind (fun c1 => pageOrbitFrom f c1 k) := by
  induction k with
  | zero =>
    simp [pageOrbitFrom]
  | succ k ih =>
    calc pageOrbitFrom f c0 (k + 2)
        = (pageOrbitFrom f c0 (k + 1)).bind (pageStep f) := rfl
      _ = ((pageStep f c0).bind (fun c1 => pageOrbitFrom f c1 k)).bind (pageStep f) := by
          rw [ih]
      _ = (pageStep f c0).bind (fun c1 => pageOrbitFrom f c1 (k + 1)) := by
          cases pageStep f c0 <;> simp [pageOrbitFrom]

/-- Unfolding equation for one loop iteration. -/
lemma paginationTrace_succ (f : String → FetchResult) (retries fuel : Nat)
    (cursor : String) (rc : Nat) :
    paginationTrace f retries (fuel + 1) cursor rc =
      match f cursor with
      | .err =>
        if retries < rc + 1 then some [cursor]
        else (paginationTrace f retries fuel cursor (rc + 1)).map (cursor :: ·)
      | .ok next =>
        if isTerminalNext cursor next then some [cursor]
        else (paginationTrace f retries fuel next 0).map (cursor :: ·) := rfl

/-- Core lemma: if the cursor orbit from c0 reaches a cursor c after k
successful non-terminal pages and the fetch at c returns a terminal next
cursor, then the loop started at c0 completes within fuel k + 1, makes
exactly k + 1 fetch calls, and every call except the last received a
non-terminal response. -/
lemma paginationTrace_of_orbit (f : String → FetchResult) (retries : Nat) :
    ∀ (k : Nat) (c0 c : String),
      pageOrbitFrom f c0 k = some c →
      (f c = .ok "" ∨ f c = .ok c) →
      ∃ tr, paginationTrace f retries (k + 1) c0 0 = some tr ∧
        tr.length = k + 1 ∧
        tr.getD 0 "" = c0 ∧
        (∀ i, i + 1 < tr.length → ∀ t, f (tr.getD i "") = .ok t →
          isTerminalNext (tr.getD i "") t = false) := by
  intro k
  induction k with
  | zero =>
    intro c0 c horb hterm
    have hc : c0 = c := by simpa [pageOrbitFrom] using horb
    subst hc
    have hstop : ∃ t, f c0 = .ok t ∧ isTerminalNext c0 t = true := by
      rcases hterm with h | h
      · exact ⟨"", h, by simp [isTerminalNext]⟩
      · exact ⟨c0, h, by simp [isTerminalNext]⟩
    rcases hstop with ⟨t, hf, ht⟩
    refine ⟨[c0], ?_, by simp, by simp, ?_⟩
    · simp [paginationTrace, hf, ht]
    · intro i hi
      simp at hi
  | succ k ih =>
    intro c0 c horb hterm
    rw [pageOrbitFrom_succ_front] at horb
    rcases Option.bind_eq_some.mp horb with ⟨c1, hstep, horb1⟩
    have hf0 : ∃ next, f c0 = .ok next ∧ isTerminalNext c0 next = false ∧ next = c1 := by
      unfold pageStep at hstep
      rcases hfc : f c0 with _ | next
      · rw [hfc] at hstep; simp at hstep
      · rw [hfc] at hstep
        by_cases hT : isTerminalNext c0 next
        · simp [hT] at hstep
        · simp [hT] at hstep
          exact ⟨next, rfl, by simp [hT], hstep⟩
    rcases hf0 with ⟨next, hfc, hT, hnext⟩
    subst hnext
    rcases ih next c horb1 hterm with ⟨tr, htr, hlen, hhead, hP⟩
    refine ⟨c0 :: tr, ?_, by simp [hlen], by simp, ?_⟩
    · show paginationTrace f retries (k + 1 + 1) c0 0 = some (c0 :: tr)
      rw [paginationTrace_succ, hfc]
      simp [hT, htr]
    · intro i hi t hft
      cases i with
      | zero =>
        simp at hft
        have : t = next := by
          rw [hfc] at hft
          injection hft with h
          exact h.symm
        subst this
        simpa using hT
      | succ j =>
        have hj : j + 1 < tr.length := by
          simp [hlen] at hi ⊢
          omega
        have := hP j hj t (by simpa using hft)
        simpa using this

/-- C1: whenever the fetch function, on some call of the walk that starts
at the empty cursor, returns an empty next cursor or a next cursor equal
to the cursor it was called with, both pagination loops
(crawlUserVideos and crawlVideoComments) perform only finitely many
fetch calls — exactly k + 1, where k is the number of non-terminal pages
before the terminal response — and a fetch is never issued with a cursor
already seen as terminal: every call before the last received a
non-terminal response, and a cursor returned as terminal at some call is
never submitted at any later call. -/
theorem crawl_pagination_terminates_no_reissue
    (f : String → FetchResult) (retries k : Nat) (c : String)
    (horb : pageOrbit f k = some c)
    (hterm : f c = .ok "" ∨ f c = .ok c) :
    ∃ tr,
      crawlUserVideosTrace f retries (k + 1) = some tr ∧
      crawlVideoCommentsTrace f retries (k + 1) = some tr ∧
      tr.length = k + 1 ∧
      (∀ i, i + 1 < tr.length → ∀ t, f (tr.getD i "") = .ok t →
        isTerminalNext (tr.getD i "") t = false) ∧
      (∀ i t, f (tr.getD i "") = .ok t → isTerminalNext (tr.getD i "") t = true →
        ∀ j, i < j → j < tr.length → tr.getD j "" ≠ t) := by
  rcases paginationTrace_of_orbit f retries k "" c horb hterm with
    ⟨tr, htr, hlen, _, hP⟩
  refine ⟨tr, htr, htr, hlen, hP, ?_⟩
  intro i t hft hT j hij hj
  by_cases hi : i + 1 < tr.length
  · have := hP i hi t hft
    rw [this] at hT
    exact absurd hT (by simp)
  · omega

/-- Witness for C1: the spec scenario where the fetch returns cursor
sequence "", "c1", "c1" — the second response repeats the cursor, so the
walk stops after exactly two fetch calls. -/
theorem crawl_pagination_terminates_no_reissue_witness :
    ∃ tr,
      crawlUserVideosTrace (fun _ => .ok "c1") 3 (1 + 1) = some tr ∧
      crawlVideoCommentsTrace (fun _ => .ok "c1") 3 (1 + 1) = some tr ∧
      tr.length = 1 + 1 ∧
      (∀ i, i + 1 < tr.length → ∀ t,
        (fun _ => FetchResult.ok "c1") (tr.getD i "") = .ok t →
        isTerminalNext (tr.getD i "") t = false) ∧
      (∀ i t, (fun _ => FetchResult.ok "c1") (tr.getD i "") = .ok t →
        isTerminalNext (tr.getD i "") t = true →
        ∀ j, i < j → j < tr.length → tr.getD j "" ≠ t) :=
  crawl_pagination_terminates_no_reissue (fun _ => .ok "c1") 3 1 "c1"
    (by decide) (Or.inr rfl)

/-! ## Checkpoint store (utils/checkpoint/checkpoint.go)

Go maps with string keys are modelled as association lists; a map write
replaces the value of an existing key and otherwise appends the new
pair, as a Go map assignment does.  Wall-clock instants are integer
parameters (seconds).  The manager's sync.Mutex is modelled explicitly
by a Boolean "held" state: acquiring a free mutex succeeds, acquiring a
held one blocks the goroutine forever, which the embedding renders as
Option.none. -/

def mapLookup {α : Type} (m : List (String × α)) (k : String) : Option α :=
  (m.find? (fun p => p.1 == k)).map (·.2)

def mapInsert {α : Type} (m : List (String × α)) (k : String) (v : α) :
    List (String × α) :=
  if m.any (fun p => p.1 == k) then
    m.map (fun p => if p.1 == k then (k, v) else p)
  else m ++ [(k, v)]

/-- Stats of checkpoint.go (Go int counters). -/
structure Stats where
  totalUsers : Int
  totalVideos : Int
  totalComments : Int
  totalProducts : Int
deriving DecidableEq, Repr

/-- Data of checkpoint.go: the serialized checkpoint record. -/
structure CheckpointData where
  platform : String
  startTime : Int
  lastUpdateTime : Int
  processedUsers : List (String × Bool)
  processedVideos : List (String × Bool)
  userCursors : List (String × String)
  commentCursors : List (String × String)
  stats : Stats
deriving DecidableEq, Repr

/-- Manager of checkpoint.go (the file path is irrelevant to the
claims and omitted). -/
structure Manager where
  enabled : Bool
  interval : Int
  data : CheckpointData
  lastSave : Int
deriving DecidableEq, Repr

/-- Go sync.Mutex.Lock: succeeds on a free mutex; on a mutex already
held by the calling goroutine it blocks forever (the mutex is not
reentrant), rendered as none. -/
def mutexLock : Bool → Option Bool
  | false => some true
  | true => none

/-- Save of checkpoint.go, entered while the mutex is in state held:
locks the mutex, stamps LastUpdateTime, writes the file and records
lastSave.  none models the Lock call blocking forever. -/
def saveM (m : Manager) (now : Int) (held : Bool) : Option Manager :=
  if !m.enabled then some m
  else
    match mutexLock held with
    | none => none
    | some _ =>
        some { m with data := { m.data with lastUpdateTime := now }, lastSave := now }

/-- CheckSave of checkpoint.go (it takes no lock itself): saves when
the elapsed time since the last save reaches the configured interval. -/
def checkSaveM (m : Manager) (now : Int) (held : Bool) : Option Manager :=
  if !m.enabled || m.interval ≤ 0 then some m
  else if (m.interval : Int) ≤ now - m.lastSave then saveM m now held
  else some m

/-- MarkUserProcessed of checkpoint.go: under the (initially free)
mutex, sets ProcessedUsers[userID] = true, increments TotalUsers, then
runs CheckSave while still holding the mutex. -/
def markUserProcessedM (m : Manager) (userID : String) (now : Int) :
    Option Manager :=
  if !m.enabled then some m
  else
    match mutexLock false with
    | none => none
    | some held =>
      let m1 : Manager :=
        { m with data :=
          { m.data with
            processedUsers := mapInsert m.data.processedUsers userID true,
            stats := { m.data.stats with totalUsers := m.data.stats.totalUsers + 1 } } }
      checkSaveM m1 now held

/-- MarkVideoProcessed of checkpoint.go: under the (initially free)
mutex, sets ProcessedVideos[videoID] = true, increments TotalVideos,
then runs CheckSave while still holding the mutex. -/
def markVideoProcessedM (m : Manager) (videoID : String) (now : Int) :
    Option Manager :=
  if !m.enabled then some m
  else
    match mutexLock false with
    | none => none
    | some held =>
      let m1 : Manager :=
        { m with data :=
          { m.data with
            processedVideos := mapInsert m.data.processedVideos videoID true,
            stats := { m.data.stats with totalVideos := m.data.stats.totalVideos + 1 } } }
      checkSaveM m1 now held

/-- GetUserCursor of checkpoint.go (a Go map read defaults to ""). -/
def getUserCursor (m : Manager) (userID : String) : String :=
  if !m.enabled then "" else (mapLookup m.data.userCursors userID).getD ""

/-- SetUserCursor of checkpoint.go. -/
def setUserCursor (m : Manager) (userID cursor : String) : Manager :=
  if !m.enabled then m
  else
    { m with data :=
      { m.data with userCursors := mapInsert m.data.userCursors userID cursor } }

lemma map_self_of_fix {α : Type} (f : α → α) :
    ∀ (l : List α), (∀ x ∈ l, f x = x) → l.map f = l
  | [], _ => rfl
  | x :: xs, h => by
    have hx := h x (by simp)
    have hxs := map_self_of_fix f xs (fun y hy => h y (by simp [hy]))
    simp [hx, hxs]

lemma mapInsert_key_mem {α : Type} (m : List (String × α)) (k : String) (v : α) :
    (mapInsert m k v).any (fun p => p.1 == k) = true := by
  unfold mapInsert
  by_cases h : m.any (fun p => p.1 == k)
  · simp only [h, if_true]
    rcases List.any_eq_true.mp h with ⟨p, hp, hpk⟩
    refine List.any_eq_true.mpr ⟨(k, v), ?_, by simp⟩
    refine List.mem_map.mpr ⟨p, hp, ?_⟩
    simp [hpk]
  · simp [h]

lemma mapInsert_pairs {α : Type} (m : List (String × α)) (k : String) (v : α) :
    ∀ p ∈ mapInsert m k v, p.1 = k → p = (k, v) := by
  unfold mapInsert
  by_cases h : m.any (fun p => p.1 == k)
  · simp only [h, if_true]
    intro p hp hk
    rcases List.mem_map.mp hp with ⟨q, hq, hfq⟩
    by_cases hqk : q.1 == k
    · simp [hqk] at hfq
      exact hfq.symm
    · simp [hqk] at hfq
      rw [← hfq] at hk
      exact absurd (by simp [hk]) hqk
  · simp only [h, if_false]
    intro p hp hk
    rcases List.mem_append.mp hp with hpm | hpu
    · have hb : (p.1 == k) = true := by simp [hk]
      exact absurd (List.any_eq_true.mpr ⟨p, hpm, hb⟩) h
    · simpa using hpu

lemma mapInsert_self {α : Type} (l : List (String × α)) (k : String) (v : α)
    (hany : l.any (fun p => p.1 == k) = true)
    (hfix : ∀ p ∈ l, p.1 = k → p = (k, v)) :
    mapInsert l k v = l := by
  unfold mapInsert
  simp only [hany, if_true]
  refine map_self_of_fix _ _ ?_
  intro p hp
  by_cases hpk : p.1 == k
  · have := hfix p hp (by simpa using hpk)
    simp [hpk, this]
  · simp [hpk]

lemma mapInsert_idem {α : Type} (m : List (String × α)) (k : String) (v : α) :
    mapInsert (mapInsert m k v) k v = mapInsert m k v :=
  mapInsert_self (mapInsert m k v) k v (mapInsert_key_mem m k v) (mapInsert_pairs m k v)

/-- If MarkUserProcessed returns (no deadlock), the resulting state is
exactly the source's pre-CheckSave mutation: the ID set to true in the
processed-users map and TotalUsers incremented; nothing else changes. -/
lemma markUserProcessed_some (m m1 : Manager) (id : String) (now : Int)
    (hen : m.enabled = true) (h : markUserProcessedM m id now = some m1) :
    m1.enabled = true ∧
    m1.data.processedUsers = mapInsert m.data.processedUsers id true ∧
    m1.data.processedVideos = m.data.processedVideos ∧
    m1.data.stats.totalUsers = m.data.stats.totalUsers + 1 ∧
    m1.data.stats.totalVideos = m.data.stats.totalVideos := by
  by_cases hI : m.interval ≤ 0
  · simp [markUserProcessedM, checkSaveM, hen, hI, mutexLock] at h
    subst h
    exact ⟨rfl, rfl, rfl, rfl, rfl⟩
  · by_cases hE : m.interval ≤ now - m.lastSave
    · simp [markUserProcessedM, checkSaveM, saveM, hen, hI, hE, mutexLock] at h
    · simp [markUserProcessedM, checkSaveM, hen, hI, hE, mutexLock] at h
      subst h
      exact ⟨rfl, rfl, rfl, rfl, rfl⟩

/-- If MarkVideoProcessed returns (no deadlock), the resulting state is
exactly the source's pre-CheckSave mutation: the ID set to true in the
processed-videos map and TotalVideos incremented; nothing else changes. -/
lemma markVideoProcessed_some (m m1 : Manager) (id : String) (now : Int)
    (hen : m.enabled = true) (h : markVideoProcessedM m id now = some m1) :
    m1.enabled = true ∧
    m1.data.processedVideos = mapInsert m.data.processedVideos id true ∧
    m1.data.processedUsers = m.data.processedUsers ∧
    m1.data.stats.totalVideos = m.data.stats.totalVideos + 1 ∧
    m1.data.stats.totalUsers = m.data.stats.totalUsers := by
  by_cases hI : m.interval ≤ 0
  · simp [markVideoProcessedM, checkSaveM, hen, hI, mutexLock] at h
    subst h
    exact ⟨rfl, rfl, rfl, rfl, rfl⟩
  · by_cases hE : m.interval ≤ now - m.lastSave
    · simp [markVideoProcessedM, checkSaveM, saveM, hen, hI, hE, mutexLock] at h
    · simp [markVideoProcessedM, checkSaveM, hen, hI, hE, mutexLock] at h
      subst h
      exact ⟨rfl, rfl, rfl, rfl, rfl⟩

/-- C4: for an enabled manager, a second MarkUserProcessed
(resp. MarkVideoProcessed) call with the same ID leaves the
processed-set unchanged — same map, hence same membership and same
cardinality — but the total counter is incremented on both the first
and the second call. -/
theorem mark_processed_idempotent_set_counter_increments
    (m : Manager) (id : String) (now1 now2 : Int) (hen : m.enabled = true) :
    (∀ m1 m2, markUserProcessedM m id now1 = some m1 →
      markUserProcessedM m1 id now2 = some m2 →
      m2.data.processedUsers = m1.data.processedUsers ∧
      (∀ x, mapLookup m2.data.processedUsers x = mapLookup m1.data.processedUsers x) ∧
      m2.data.processedUsers.length = m1.data.processedUsers.length ∧
      m1.data.stats.totalUsers = m.data.stats.totalUsers + 1 ∧
      m2.data.stats.totalUsers = m.data.stats.totalUsers + 2) ∧
    (∀ m1 m2, markVideoProcessedM m id now1 = some m1 →
      markVideoProcessedM m1 id now2 = some m2 →
      m2.data.processedVideos = m1.data.processedVideos ∧
      (∀ x, mapLookup m2.data.processedVideos x = mapLookup m1.data.processedVideos x) ∧
      m2.data.processedVideos.length = m1.data.processedVideos.length ∧
      m1.data.stats.totalVideos = m.data.stats.totalVideos + 1 ∧
      m2.data.stats.totalVideos = m.data.stats.totalVideos + 2) := by
  constructor
  · intro m1 m2 h1 h2
    rcases markUserProcessed_some m m1 id now1 hen h1 with ⟨he1, hu1, _, hc1, _⟩
    rcases markUserProcessed_some m1 m2 id now2 he1 h2 with ⟨_, hu2, _, hc2, _⟩
    have hset : m2.data.processedUsers = m1.data.processedUsers := by
      rw [hu2, hu1, mapInsert_idem]
    exact ⟨hset, fun x => by rw [hset], by rw [hset], hc1, by rw [hc2, hc1]; ring⟩
  · intro m1 m2 h1 h2
    rcases markVideoProcessed_some m m1 id now1 hen h1 with ⟨he1, hv1, _, hc1, _⟩
    rcases markVideoProcessed_some m1 m2 id now2 he1 h2 with ⟨_, hv2, _, hc2, _⟩
    have hset : m2.data.processedVideos = m1.data.processedVideos := by
      rw [hv2, hv1, mapInsert_idem]
    exact ⟨hset, fun x => by rw [hset], by rw [hset], hc1, by rw [hc2, hc1]; ring⟩

/-- Witness for C4 at a concrete enabled manager (save interval 0, so
the auto-save check never fires and both calls return). -/
theorem mark_processed_idempotent_witness :
    ∃ m1 m2,
      markUserProcessedM
        (⟨true, 0, ⟨"d", 0, 0, [], [], [], [], ⟨0, 0, 0, 0⟩⟩, 0⟩ : Manager) "u1" 1 =
        some m1 ∧
      markUserProcessedM m1 "u1" 2 = some m2 ∧
      m2.data.processedUsers = m1.data.processedUsers ∧
      m2.data.stats.totalUsers =
        (⟨true, 0, ⟨"d", 0, 0, [], [], [], [], ⟨0, 0, 0, 0⟩⟩, 0⟩ : Manager).data.stats.totalUsers + 2 := by
  have hA : markUserProcessedM
      (⟨true, 0, ⟨"d", 0, 0, [], [], [], [], ⟨0, 0, 0, 0⟩⟩, 0⟩ : Manager) "u1" 1 =
      some (⟨true, 0, ⟨"d", 0, 0, [("u1", true)], [], [], [], ⟨1, 0, 0, 0⟩⟩, 0⟩ : Manager) := by
    decide
  have hB : markUserProcessedM
      (⟨true, 0, ⟨"d", 0, 0, [("u1", true)], [], [], [], ⟨1, 0, 0, 0⟩⟩, 0⟩ : Manager) "u1" 2 =
      some (⟨true, 0, ⟨"d", 0, 0, [("u1", true)], [], [], [], ⟨2, 0, 0, 0⟩⟩, 0⟩ : Manager) := by
    decide
  have h := (mark_processed_idempotent_set_counter_increments _ "u1" 1 2 rfl).1 _ _ hA hB
  exact ⟨_, _, hA, hB, h.1, h.2.2.2.2⟩

/-- The Crawler struct of the main file holds a config, a wait group, a
mutex, the ID channel and the scraper — no checkpoint manager — and
crawlUserVideos initializes cursor := "" and mentions no checkpoint.
This definition threads an ambient checkpoint manager through the walk
to record that fact faithfully: the walk's trace does not depend on the
manager and the manager is returned unchanged, since the source cannot
read or write state it holds no reference to. -/
def crawlUserVideosWithCk (ck : Manager) (f : String → FetchResult)
    (retries fuel : Nat) : Option (List String) × Manager :=
  (paginationTrace f retries fuel "" 0, ck)

/-- Every completed walk submits its start cursor on the first call. -/
lemma paginationTrace_head (f : String → FetchResult) (retries fuel : Nat)
    (c : String) (rc : Nat) (tr : List String)
    (h : paginationTrace f retries fuel c rc = some tr) :
    tr.getD 0 "" = c := by
  cases fuel with
  | zero => simp [paginationTrace] at h
  | succ fuel =>
    rw [paginationTrace_succ] at h
    rcases hfc : f c with _ | next <;> rw [hfc] at h
    · by_cases hR : retries < rc + 1
      · simp [hR] at h
        simp [← h]
      · simp [hR] at h
        rcases h with ⟨tl, _, htl⟩
        simp [← htl]
    · by_cases hT : isTerminalNext c next
      · simp [hT] at h
        simp [← h]
      · simp [hT] at h
        rcases h with ⟨tl, _, htl⟩
        simp [← htl]

/-- C3 counterexample: a concrete enabled checkpoint manager stores the
resume cursor "c5" for user "u1" (GetUserCursor returns it), yet the
walk of crawlUserVideos submits "" on its first fetch — not "c5" — and
after a successful fetch the checkpoint state is unchanged: no
nextCursor was written back to the cursor map. -/
theorem crawl_ignores_checkpoint_counterexample :
    getUserCursor
      (⟨true, 0, ⟨"d", 0, 0, [], [], [("u1", "c5")], [], ⟨0, 0, 0, 0⟩⟩, 0⟩ : Manager)
      "u1" = "c5" ∧
    (crawlUserVideosWithCk
      (⟨true, 0, ⟨"d", 0, 0, [], [], [("u1", "c5")], [], ⟨0, 0, 0, 0⟩⟩, 0⟩ : Manager)
      (fun _ => .ok "n1") 3 5).1 = some ["", "n1"] ∧
    ("" : String) ≠ "c5" ∧
    (crawlUserVideosWithCk
      (⟨true, 0, ⟨"d", 0, 0, [], [], [("u1", "c5")], [], ⟨0, 0, 0, 0⟩⟩, 0⟩ : Manager)
      (fun _ => .ok "n1") 3 5).2 =
      (⟨true, 0, ⟨"d", 0, 0, [], [], [("u1", "c5")], [], ⟨0, 0, 0, 0⟩⟩, 0⟩ : Manager) := by
  refine ⟨by decide, by decide, by decide, rfl⟩

/-- C3 amended: for every parent ID the pagination walk of
crawlUserVideos begins at the empty sentinel cursor regardless of the
cursor held by the Checkpoint Store, and it never updates the
checkpoint: the store's state — in particular its user-cursor map — is
returned unchanged, whatever the fetch results were.  (SetUserCursor
exists in the checkpoint package but is never invoked by the crawl
loop.) -/
theorem crawl_starts_empty_preserves_checkpoint
    (ck : Manager) (f : String → FetchResult) (retries fuel : Nat) :
    (crawlUserVideosWithCk ck f retries fuel).2 = ck ∧
    (crawlUserVideosWithCk ck f retries fuel).2.data.userCursors =
      ck.data.userCursors ∧
    (∀ tr, (crawlUserVideosWithCk ck f retries fuel).1 = some tr →
      tr.getD 0 "" = "") := by
  refine ⟨rfl, rfl, ?_⟩
  intro tr htr
  exact paginationTrace_head f retries fuel "" 0 tr htr

/-- Witness for C3's amended theorem at a concrete store and fetch. -/
theorem crawl_starts_empty_preserves_checkpoint_witness :
    (["", "n1"] : List String).getD 0 "" = "" :=
  (crawl_starts_empty_preserves_checkpoint
    (⟨true, 0, ⟨"d", 0, 0, [], [], [("u1", "c5")], [], ⟨0, 0, 0, 0⟩⟩, 0⟩ : Manager)
    (fun _ => .ok "n1") 3 5).2.2 ["", "n1"] (by decide)

/-- C6 (code bug): with the manager enabled, a 5-second save interval
and 6 seconds elapsed since the last save, MarkUserProcessed never
returns and writes no save: CheckSave calls Save while the marking call
still holds the manager's non-reentrant mutex, and Save blocks forever
in its own Lock.  The second conjunct shows the call returns normally
when the elapsed time is below the interval, and the third that an
explicit Save with the mutex free succeeds — the failure is specific to
the auto-save path the claim describes. -/
theorem autosave_fire_deadlocks :
    markUserProcessedM
      (⟨true, 5, ⟨"d", 0, 0, [], [], [], [], ⟨0, 0, 0, 0⟩⟩, 0⟩ : Manager) "u1" 6 = none ∧
    (markUserProcessedM
      (⟨true, 5, ⟨"d", 0, 0, [], [], [], [], ⟨0, 0, 0, 0⟩⟩, 0⟩ : Manager) "u1" 3).isSome = true ∧
    (saveM
      (⟨true, 5, ⟨"d", 0, 0, [], [], [], [], ⟨0, 0, 0, 0⟩⟩, 0⟩ : Manager) 6 false).isSome = true := by
  decide

/-! ## Rate limiter (the ratelimit package)

Durations and instants are int64 nanoseconds as in Go's time package;
Go's integer division truncates toward zero, which is Int.div. -/

/-- Limiter of the ratelimit package. -/
structure Limiter where
  enabled : Bool
  requestsPerMinute : Int
  interval : Int
  tokens : Int
  lastRefill : Int
deriving DecidableEq, Repr

/-- Config of the ratelimit package. -/
structure RLConfig where
  enabled : Bool
  requestsPerMinute : Int
deriving DecidableEq, Repr

/-- NewLimiter: a non-positive RequestsPerMinute falls back to 60;
interval = time.Minute / requestsPerMinute (60e9 ns, Go integer
division); tokens start at requestsPerMinute; lastRefill = now. -/
def newLimiter (config : RLConfig) (now : Int) : Limiter :=
  let requestsPerMinute :=
    if config.requestsPerMinute ≤ 0 then 60 else config.requestsPerMinute
  { enabled := config.enabled
    requestsPerMinute := requestsPerMinute
    interval := Int.tdiv 60000000000 requestsPerMinute
    tokens := requestsPerMinute
    lastRefill := now }

/-- Wait of the ratelimit package: disabled is a no-op; otherwise a
lazy refill of elapsed / interval tokens capped at capacity (advancing
lastRefill by the replenished amount), then, if no token is left, a
sleep until one token is due, with tokens set to 1 and the refill
anchor reset to the wake-up instant now2; finally one token is
consumed.  now1 is the instant of the elapsed-time read, now2 the
instant after the sleep. -/
def waitL (l : Limiter) (now1 now2 : Int) : Limiter :=
  if !l.enabled then l
  else
    let elapsed := now1 - l.lastRefill
    let tokensToAdd := Int.tdiv elapsed l.interval
    let l1 :=
      if 0 < tokensToAdd then
        { l with tokens := min l.requestsPerMinute (l.tokens + tokensToAdd),
                 lastRefill := l.lastRefill + tokensToAdd * l.interval }
      else l
    let l2 :=
      if l1.tokens ≤ 0 then { l1 with tokens := 1, lastRefill := now2 }
      else l1
    { l2 with tokens := l2.tokens - 1 }

/-- The token-bucket invariant of the claim, strengthened with the
facts (established by NewLimiter) that the capacity is at least one and
the refill interval is non-negative. -/
def LimiterInv (l : Limiter) : Prop :=
  1 ≤ l.requestsPerMinute ∧ 0 ≤ l.interval ∧
  0 ≤ l.tokens ∧ l.tokens ≤ l.requestsPerMinute

/-- C7: 0 ≤ tokens ≤ requestsPerMinute holds after NewLimiter and is
preserved by every Wait under a monotone clock (the elapsed time read
by the refill is non-negative); the lazy refill amount
elapsed / interval is never negative. -/
theorem limiter_tokens_invariant (config : RLConfig) (l : Limiter)
    (now now1 now2 : Int) (hinv : LimiterInv l) (hmono : l.lastRefill ≤ now1) :
    LimiterInv (newLimiter config now) ∧
    0 ≤ Int.tdiv (now1 - l.lastRefill) l.interval ∧
    LimiterInv (waitL l now1 now2) := by
  rcases hinv with ⟨hcap, hint, htok0, htokC⟩
  have hrefill : 0 ≤ Int.tdiv (now1 - l.lastRefill) l.interval :=
    Int.tdiv_nonneg (by omega) hint
  refine ⟨?_, hrefill, ?_⟩
  · unfold newLimiter LimiterInv
    by_cases h : config.requestsPerMinute ≤ 0
    · simp [h]
      decide
    · simp only [h, if_false]
      have hpos : 1 ≤ config.requestsPerMinute := by omega
      exact ⟨hpos, Int.tdiv_nonneg (by omega) (by omega), by omega, le_refl _⟩
  · unfold waitL
    by_cases hen : l.enabled
    · simp only [hen, Bool.not_true, Bool.false_eq_true, if_false]
      set toAdd := Int.tdiv (now1 - l.lastRefill) l.interval with hta
      have hminA : min l.requestsPerMinute (l.tokens + toAdd) ≤ l.requestsPerMinute :=
        min_le_left _ _
      by_cases hadd : 0 < toAdd
      · have hminB : (0 : Int) ≤ min l.requestsPerMinute (l.tokens + toAdd) :=
          le_min (by omega) (by omega)
        simp only [hadd, if_true]
        by_cases hz : min l.requestsPerMinute (l.tokens + toAdd) ≤ 0
        · simp only [hz, if_true, LimiterInv]
          refine ⟨hcap, hint, by omega, by omega⟩
        · simp only [hz, if_false, LimiterInv]
          refine ⟨hcap, hint, by omega, by omega⟩
      · simp only [hadd, if_false]
        by_cases hz : l.tokens ≤ 0
        · simp only [hz, if_true, LimiterInv]
          refine ⟨hcap, hint, by omega, by omega⟩
        · simp only [hz, if_false, LimiterInv]
          refine ⟨hcap, hint, by omega, by omega⟩
    · simp only [Bool.not_eq_true] at hen
      simp only [hen, Bool.not_false, if_true]
      exact ⟨hcap, hint, htok0, htokC⟩

/-- Witness for C7 at a concrete limiter and clock instants. -/
theorem limiter_tokens_invariant_witness :
    LimiterInv (newLimiter ⟨true, 0⟩ 0) ∧
    0 ≤ Int.tdiv ((5 : Int) - 0) 1000000000 ∧
    LimiterInv (waitL ⟨true, 60, 1000000000, 60, 0⟩ 5 5) :=
  limiter_tokens_invariant ⟨true, 0⟩ ⟨true, 60, 1000000000, 60, 0⟩ 0 5 5
    ⟨by decide, by decide, by decide, by decide⟩ (by decide)

/-- C10: NewLimiter with a zero or negative RequestsPerMinute yields
capacity 60, a refill interval of one second (one minute divided by
60, in nanoseconds) and tokens equal to the capacity; a positive
RequestsPerMinute becomes the capacity itself, again with a full
bucket. -/
theorem newLimiter_default_capacity (config : RLConfig) (now : Int) :
    (config.requestsPerMinute ≤ 0 →
      (newLimiter config now).requestsPerMinute = 60 ∧
      (newLimiter config now).interval = 1000000000 ∧
      (newLimiter config now).tokens = 60) ∧
    (0 < config.requestsPerMinute →
      (newLimiter config now).requestsPerMinute = config.requestsPerMinute ∧
      (newLimiter config now).tokens = (newLimiter config now).requestsPerMinute) := by
  constructor
  · intro h
    refine ⟨by simp [newLimiter, h], ?_, by simp [newLimiter, h]⟩
    simp only [newLimiter, h, if_true]
    decide
  · intro h
    have h' : ¬config.requestsPerMinute ≤ 0 := by omega
    exact ⟨by simp [newLimiter, h'], by simp [newLimiter, h']⟩

/-- Witness for C10 at both a defaulting and a positive configuration. -/
theorem newLimiter_default_capacity_witness :
    ((newLimiter ⟨true, -3⟩ 0).requestsPerMinute = 60 ∧
      (newLimiter ⟨true, -3⟩ 0).interval = 1000000000 ∧
      (newLimiter ⟨true, -3⟩ 0).tokens = 60) ∧
    ((newLimiter ⟨true, 30⟩ 0).requestsPerMinute = 30 ∧
      (newLimiter ⟨true, 30⟩ 0).tokens = (newLimiter ⟨true, 30⟩ 0).requestsPerMinute) :=
  ⟨(newLimiter_default_capacity ⟨true, -3⟩ 0).1 (by decide),
   (newLimiter_default_capacity ⟨true, 30⟩ 0).2 (by decide)⟩

/-! ## Proxy pool (crawler/proxy.go) -/

/-- ProxyInfo of crawler/proxy.go. -/
structure ProxyInfo where
  ip : String
  port : String
  protocol : String
  username : String
  password : String
  lastUsed : Int
  failCount : Int
  isValid : Bool
deriving DecidableEq, Repr

instance : Inhabited ProxyInfo := ⟨⟨"", "", "", "", "", 0, 0, false⟩⟩

/-- ProxyPool of crawler/proxy.go (file path and test URL omitted). -/
structure ProxyPool where
  proxies : List ProxyInfo
  maxFailures : Int
deriving DecidableEq, Repr

/-- The usability test applied by GetProxy:
proxy.IsValid and proxy.FailCount < p.maxFailures. -/
def usableProxy (maxFailures : Int) (p : ProxyInfo) : Bool :=
  p.isValid && p.failCount < maxFailures

/-- GetProxy of crawler/proxy.go: filter the usable proxies, return nil
if none remain, otherwise pick the proxy at a random index — modelled
by r % length for an arbitrary natural r, matching rand.Intn — and
return it with its LastUsed stamped to the current instant. -/
def getProxy (pool : ProxyPool) (r : Nat) (now : Int) : Option ProxyInfo :=
  let validProxies := pool.proxies.filter (usableProxy pool.maxFailures)
  if h : validProxies.length = 0 then none
  else
    let selected := validProxies.get ⟨r % validProxies.length,
      Nat.mod_lt r (Nat.pos_of_ne_zero h)⟩
    some { selected with lastUsed := now }

/-- C8: GetProxy returns nil exactly when no stored proxy is usable,
and any proxy it returns is valid with a failure count below the
threshold. -/
theorem getProxy_usable_correct (pool : ProxyPool) (r : Nat) (now : Int) :
    (getProxy pool r now = none ↔
      ∀ p ∈ pool.proxies, usableProxy pool.maxFailures p = false) ∧
    (∀ q, getProxy pool r now = some q →
      q.isValid = true ∧ q.failCount < pool.maxFailures) := by
  constructor
  · constructor
    · intro hnone p hp
      by_contra hb
      have hpT : usableProxy pool.maxFailures p = true := by
        revert hb
        cases usableProxy pool.maxFailures p <;> simp
      have hmem : p ∈ pool.proxies.filter (usableProxy pool.maxFailures) :=
        List.mem_filter.mpr ⟨hp, hpT⟩
      have hlen : (pool.proxies.filter (usableProxy pool.maxFailures)).length ≠ 0 := by
        intro h0
        rw [List.length_eq_zero.mp h0] at hmem
        simp at hmem
      unfold getProxy at hnone
      rw [dif_neg hlen] at hnone
      simp at hnone
    · intro hall
      have hlen : (pool.proxies.filter (usableProxy pool.maxFailures)).length = 0 := by
        rw [List.length_eq_zero, List.filter_eq_nil_iff]
        intro a ha
        simp [hall a ha]
      unfold getProxy
      rw [dif_pos hlen]
  · intro q hq
    unfold getProxy at hq
    by_cases hlen : (pool.proxies.filter (usableProxy pool.maxFailures)).length = 0
    · rw [dif_pos hlen] at hq
      exact absurd hq (by simp)
    · rw [dif_neg hlen] at hq
      have hmem :
          (pool.proxies.filter (usableProxy pool.maxFailures)).get
            ⟨r % (pool.proxies.filter (usableProxy pool.maxFailures)).length,
              Nat.mod_lt r (Nat.pos_of_ne_zero hlen)⟩ ∈
            pool.proxies.filter (usableProxy pool.maxFailures) :=
        List.get_mem _ _ _
      have husable := (List.mem_filter.mp hmem).2
      simp only [usableProxy, Bool.and_eq_true, decide_eq_true_eq] at husable
      have hq' : q = { (pool.proxies.filter (usableProxy pool.maxFailures)).get
          ⟨r % (pool.proxies.filter (usableProxy pool.maxFailures)).length,
            Nat.mod_lt r (Nat.pos_of_ne_zero hlen)⟩ with lastUsed := now } := by
        injection hq with h
        exact h.symm
      subst hq'
      exact ⟨husable.1, husable.2⟩

/-- Witness for C8: a pool holding one worn-out proxy and one usable
proxy; GetProxy returns the usable one. -/
theorem getProxy_usable_correct_witness :
    (⟨"2.2.2.2", "8080", "http", "", "", 7, 0, true⟩ : ProxyInfo).isValid = true ∧
    (⟨"2.2.2.2", "8080", "http", "", "", 7, 0, true⟩ : ProxyInfo).failCount <
      (⟨[⟨"1.1.1.1", "80", "http", "", "", 0, 3, true⟩,
         ⟨"2.2.2.2", "8080", "http", "", "", 0, 0, true⟩], 3⟩ : ProxyPool).maxFailures :=
  (getProxy_usable_correct
    (⟨[⟨"1.1.1.1", "80", "http", "", "", 0, 3, true⟩,
       ⟨"2.2.2.2", "8080", "http", "", "", 0, 0, true⟩], 3⟩ : ProxyPool) 0 7).2
    (⟨"2.2.2.2", "8080", "http", "", "", 7, 0, true⟩ : ProxyInfo) (by decide)

/-- The field update AddProxy performs on an existing entry:
Protocol, Username, Password and IsValid are taken from the argument;
every other field — in particular FailCount and LastUsed — stays. -/
def updateExisting (p q : ProxyInfo) : ProxyInfo :=
  { p with protocol := q.protocol, username := q.username,
           password := q.password, isValid := q.isValid }

/-- AddProxy of crawler/proxy.go: the first entry with the same
(IP, Port) is updated in place and the scan stops; without a match the
proxy is appended at the end. -/
def addProxy : List ProxyInfo → ProxyInfo → List ProxyInfo
  | [], q => [q]
  | p :: rest, q =>
    if p.ip == q.ip && p.port == q.port then updateExisting p q :: rest
    else p :: addProxy rest q

/-- RemoveProxy of crawler/proxy.go: the first entry with the given
(IP, Port) is removed and the scan stops. -/
def removeProxy : List ProxyInfo → String → String → List ProxyInfo
  | [], _, _ => []
  | p :: rest, ip, port =>
    if p.ip == ip && p.port == port then rest
    else p :: removeProxy rest ip port

/-- The identity AddProxy and RemoveProxy match on. -/
def proxyKey (p : ProxyInfo) : String × String := (p.ip, p.port)

/-- No two pool entries share an (IP, Port) identity. -/
def KeysNodup (l : List ProxyInfo) : Prop := (l.map proxyKey).Nodup

/-- A pool mutation: an AddProxy or a RemoveProxy call. -/
inductive PoolOp where
  | add (q : ProxyInfo) : PoolOp
  | remove (ip port : String) : PoolOp

def applyOp (l : List ProxyInfo) : PoolOp → List ProxyInfo
  | .add q => addProxy l q
  | .remove ip port => removeProxy l ip port

def applyOps (l : List ProxyInfo) (ops : List PoolOp) : List ProxyInfo :=
  ops.foldl applyOp l

lemma addProxy_keys_mem (q : ProxyInfo) :
    ∀ (l : List ProxyInfo) (x : String × String),
      x ∈ (addProxy l q).map proxyKey → x ∈ l.map proxyKey ∨ x = proxyKey q := by
  intro l
  induction l with
  | nil =>
    intro x hx
    simp [addProxy] at hx
    exact Or.inr hx
  | cons p rest ih =>
    intro x hx
    by_cases hm : p.ip == q.ip && p.port == q.port
    · rw [show addProxy (p :: rest) q = updateExisting p q :: rest from by
        simp [addProxy, hm]] at hx
      simp only [List.map_cons, List.mem_cons] at hx
      rcases hx with hx | hx
      · exact Or.inl (by simp [hx, updateExisting, proxyKey])
      · exact Or.inl (by simp [hx])
    · rw [show addProxy (p :: rest) q = p :: addProxy rest q from by
        simp [addProxy, hm]] at hx
      simp only [List.map_cons, List.mem_cons] at hx
      rcases hx with hx | hx
      · exact Or.inl (by simp [hx])
      · rcases ih x hx with h | h
        · exact Or.inl (by simp [h])
        · exact Or.inr h

lemma addProxy_keysNodup (q : ProxyInfo) :
    ∀ (l : List ProxyInfo), KeysNodup l → KeysNodup (addProxy l q) := by
  intro l
  induction l with
  | nil =>
    intro _
    simp [addProxy, KeysNodup]
  | cons p rest ih =>
    intro h
    rcases List.nodup_cons.mp h with ⟨hnp, hrest⟩
    by_cases hm : p.ip == q.ip && p.port == q.port
    · rw [show addProxy (p :: rest) q = updateExisting p q :: rest from by
        simp [addProxy, hm]]
      unfold KeysNodup
      rw [List.map_cons]
      refine List.nodup_cons.mpr ⟨?_, hrest⟩
      simpa [updateExisting, proxyKey] using hnp
    · rw [show addProxy (p :: rest) q = p :: addProxy rest q from by
        simp [addProxy, hm]]
      unfold KeysNodup
      rw [List.map_cons]
      refine List.nodup_cons.mpr ⟨?_, ih hrest⟩
      intro hmem
      rcases addProxy_keys_mem q rest (proxyKey p) hmem with hin | heq
      · exact hnp hin
      · have : p.ip = q.ip ∧ p.port = q.port := by
          have := Prod.mk.injEq (p.ip) (p.port) (q.ip) (q.port) ▸ heq
          simpa [proxyKey] using heq
        simp [this.1, this.2] at hm

lemma removeProxy_sublist (ip port : String) :
    ∀ (l : List ProxyInfo), (removeProxy l ip port).Sublist l := by
  intro l
  induction l with
  | nil => simp [removeProxy]
  | cons p rest ih =>
    by_cases hm : p.ip == ip && p.port == port
    · rw [show removeProxy (p :: rest) ip port = rest from by simp [removeProxy, hm]]
      exact List.sublist_cons_self p rest
    · rw [show removeProxy (p :: rest) ip port = p :: removeProxy rest ip port from by
        simp [removeProxy, hm]]
      exact List.Sublist.cons₂ p ih

lemma removeProxy_keysNodup (ip port : String) (l : List ProxyInfo)
    (h : KeysNodup l) : KeysNodup (removeProxy l ip port) :=
  List.Nodup.sublist (List.Sublist.map proxyKey (removeProxy_sublist ip port l)) h

lemma applyOps_keysNodup :
    ∀ (ops : List PoolOp) (l : List ProxyInfo),
      KeysNodup l → KeysNodup (applyOps l ops) := by
  intro ops
  induction ops with
  | nil => intro l h; exact h
  | cons op rest ih =>
    intro l h
    show KeysNodup (applyOps (applyOp l op) rest)
    refine ih _ ?_
    cases op with
    | add q => exact addProxy_keysNodup q l h
    | remove ip port => exact removeProxy_keysNodup ip port l h

lemma addProxy_match_eq_set (q : ProxyInfo) :
    ∀ (l : List ProxyInfo) (i : Nat) (hi : i < l.length),
      KeysNodup l →
      (l.get ⟨i, hi⟩).ip = q.ip → (l.get ⟨i, hi⟩).port = q.port →
      addProxy l q = l.set i (updateExisting (l.get ⟨i, hi⟩) q) := by
  intro l
  induction l with
  | nil =>
    intro i hi
    simp at hi
  | cons p rest ih =>
    intro i hi hnd hip hport
    rcases List.nodup_cons.mp hnd with ⟨hnp, hrest⟩
    cases i with
    | zero =>
      simp only [List.get] at hip hport
      have hm : (p.ip == q.ip && p.port == q.port) = true := by
        simp [hip, hport]
      simp [addProxy, hm, List.set]
    | succ j =>
      have hj : j < rest.length := by simpa using hi
      have hget : (p :: rest).get ⟨j + 1, hi⟩ = rest.get ⟨j, hj⟩ := rfl
      rw [hget] at hip hport
      have hkey : proxyKey (rest.get ⟨j, hj⟩) ∈ rest.map proxyKey :=
        List.mem_map_of_mem proxyKey (rest.get_mem j hj)
      have hne : ¬(p.ip == q.ip && p.port == q.port) = true := by
        intro hm
        simp only [Bool.and_eq_true, beq_iff_eq] at hm
        have : proxyKey p = proxyKey (rest.get ⟨j, hj⟩) := by
          simp only [proxyKey, hm.1, hm.2, Prod.mk.injEq]
          exact ⟨hip.symm, hport.symm⟩
        exact hnp (this ▸ hkey)
      rw [show addProxy (p :: rest) q = p :: addProxy rest q from by
        simp [addProxy, hne]]
      rw [ih j hj hrest hip hport]
      rfl

lemma getD_set_ne {α : Type} (d : α) :
    ∀ (l : List α) (i j : Nat) (v : α), i ≠ j →
      (l.set i v).getD j d = l.getD j d := by
  intro l
  induction l with
  | nil => intro i j v _; simp
  | cons x xs ih =>
    intro i j v hne
    cases i with
    | zero =>
      cases j with
      | zero => exact absurd rfl hne
      | succ j2 => simp [List.set]
    | succ i2 =>
      cases j with
      | zero => simp [List.set]
      | succ j2 =>
        have : i2 ≠ j2 := fun h => hne (by rw [h])
        simp only [List.set, List.getD_cons_succ]
        exact ih i2 j2 v this

/-- C9: starting from a pool whose (IP, Port) identities are all
distinct, any sequence of AddProxy and RemoveProxy calls preserves that
distinctness; and when AddProxy matches the entry at index i it
rewrites the pool to exactly l.set i (updateExisting entry q) — the
matched entry keeps its FailCount, LastUsed, IP and Port and takes only
Protocol, Username, Password and IsValid from the argument, the pool
length is unchanged, and every other entry is untouched. -/
theorem proxy_pool_upsert_nodup_frame :
    (∀ (l : List ProxyInfo) (ops : List PoolOp),
      KeysNodup l → KeysNodup (applyOps l ops)) ∧
    (∀ (l : List ProxyInfo) (q : ProxyInfo) (i : Nat) (hi : i < l.length),
      KeysNodup l →
      (l.get ⟨i, hi⟩).ip = q.ip → (l.get ⟨i, hi⟩).port = q.port →
      addProxy l q = l.set i (updateExisting (l.get ⟨i, hi⟩) q) ∧
      (addProxy l q).length = l.length ∧
      (updateExisting (l.get ⟨i, hi⟩) q).failCount = (l.get ⟨i, hi⟩).failCount ∧
      (updateExisting (l.get ⟨i, hi⟩) q).lastUsed = (l.get ⟨i, hi⟩).lastUsed ∧
      (updateExisting (l.get ⟨i, hi⟩) q).ip = (l.get ⟨i, hi⟩).ip ∧
      (updateExisting (l.get ⟨i, hi⟩) q).port = (l.get ⟨i, hi⟩).port ∧
      (updateExisting (l.get ⟨i, hi⟩) q).protocol = q.protocol ∧
      (updateExisting (l.get ⟨i, hi⟩) q).isValid = q.isValid ∧
      (∀ j, j ≠ i → (addProxy l q).getD j default = l.getD j default)) := by
  refine ⟨fun l ops h => applyOps_keysNodup ops l h, ?_⟩
  intro l q i hi hnd hip hport
  have hset := addProxy_match_eq_set q l i hi hnd hip hport
  refine ⟨hset, by rw [hset]; exact List.length_set l i _, rfl, rfl, rfl, rfl, rfl, rfl, ?_⟩
  intro j hj
  rw [hset]
  exact getD_set_ne default l i j _ (fun h => hj h.symm)

/-- Witness for C9: a two-entry pool; re-adding the first identity with
new credentials keeps the pool duplicate-free, preserves its length and
the matched entry's failure count, and leaves the other entry alone. -/
theorem proxy_pool_upsert_nodup_frame_witness :
    KeysNodup (applyOps
      [⟨"1.1.1.1", "80", "http", "", "", 0, 2, true⟩,
       ⟨"2.2.2.2", "8080", "http", "", "", 0, 0, true⟩]
      [.add ⟨"1.1.1.1", "80", "socks5", "u", "pw", 9, 9, false⟩,
       .remove "2.2.2.2" "8080"]) ∧
    addProxy
      [⟨"1.1.1.1", "80", "http", "", "", 0, 2, true⟩,
       ⟨"2.2.2.2", "8080", "http", "", "", 0, 0, true⟩]
      ⟨"1.1.1.1", "80", "socks5", "u", "pw", 9, 9, false⟩ =
      [⟨"1.1.1.1", "80", "socks5", "u", "pw", 0, 2, false⟩,
       ⟨"2.2.2.2", "8080", "http", "", "", 0, 0, true⟩] := by
  constructor
  · exact (proxy_pool_upsert_nodup_frame.1
      [⟨"1.1.1.1", "80", "http", "", "", 0, 2, true⟩,
       ⟨"2.2.2.2", "8080", "http", "", "", 0, 0, true⟩]
      [.add ⟨"1.1.1.1", "80", "socks5", "u", "pw", 9, 9, false⟩,
       .remove "2.2.2.2" "8080"]
      (by simp [KeysNodup, proxyKey]))
  · have h := (proxy_pool_upsert_nodup_frame.2
      [⟨"1.1.1.1", "80", "http", "", "", 0, 2, true⟩,
       ⟨"2.2.2.2", "8080", "http", "", "", 0, 0, true⟩]
      ⟨"1.1.1.1", "80", "socks5", "u", "pw", 9, 9, false⟩ 0 (by decide)
      (by simp [KeysNodup, proxyKey]) rfl rfl).1
    rw [h]
    rfl

/-! ## Checkpoint Save/Load round trip (claim C5)

Save serializes the Data struct with encoding/json and Load parses the
same bytes back; the byte-level (de)serializer is Go's standard library,
external to this repository, so the embedding works at the level of the
JSON document: a value tree with the field names given by the struct
tags of checkpoint.go.  Go maps have unique keys, rendered as objects;
timestamps are opaque integers.  The decoder looks fields up by name
and type-checks them, failing on a mismatch. -/

inductive JsonVal where
  | jstr (s : String) : JsonVal
  | jint (n : Int) : JsonVal
  | jbool (b : Bool) : JsonVal
  | jobj (fields : List (String × JsonVal)) : JsonVal

def getField (fields : List (String × JsonVal)) (k : String) : Option JsonVal :=
  (fields.find? (fun p => p.1 == k)).map (·.2)

def asStr : JsonVal → Option String
  | .jstr s => some s
  | _ => none

def asInt : JsonVal → Option Int
  | .jint n => some n
  | _ => none

def asBool : JsonVal → Option Bool
  | .jbool b => some b
  | _ => none

def marshalBoolMap (m : List (String × Bool)) : JsonVal :=
  .jobj (m.map (fun p => (p.1, .jbool p.2)))

def marshalStrMap (m : List (String × String)) : JsonVal :=
  .jobj (m.map (fun p => (p.1, .jstr p.2)))

/-- Decode every field value of an object with dec, keeping the keys;
any failing field fails the whole decode, as encoding/json does for a
map whose value type does not match. -/
def decodePairs {α : Type} (dec : JsonVal → Option α) :
    List (String × JsonVal) → Option (List (String × α))
  | [] => some []
  | p :: rest => do
    let v ← dec p.2
    let tail ← decodePairs dec rest
    some ((p.1, v) :: tail)

def unmarshalBoolMap : JsonVal → Option (List (String × Bool))
  | .jobj fs => decodePairs asBool fs
  | _ => none

def unmarshalStrMap : JsonVal → Option (List (String × String))
  | .jobj fs => decodePairs asStr fs
  | _ => none

def marshalStats (s : Stats) : JsonVal :=
  .jobj [("total_users", .jint s.totalUsers),
         ("total_videos", .jint s.totalVideos),
         ("total_comments", .jint s.totalComments),
         ("total_products", .jint s.totalProducts)]

def unmarshalStats (j : JsonVal) : Option Stats :=
  match j with
  | .jobj fs => do
    let tu ← (getField fs "total_users").bind asInt
    let tv ← (getField fs "total_videos").bind asInt
    let tc ← (getField fs "total_comments").bind asInt
    let tp ← (getField fs "total_products").bind asInt
    some ⟨tu, tv, tc, tp⟩
  | _ => none

/-- json.MarshalIndent of the Data struct, at document level: the
fields and their json tags from checkpoint.go. -/
def marshalData (d : CheckpointData) : JsonVal :=
  .jobj [("platform", .jstr d.platform),
         ("start_time", .jint d.startTime),
         ("last_update_time", .jint d.lastUpdateTime),
         ("processed_users", marshalBoolMap d.processedUsers),
         ("processed_videos", marshalBoolMap d.processedVideos),
         ("user_cursors", marshalStrMap d.userCursors),
         ("comment_cursors", marshalStrMap d.commentCursors),
         ("stats", marshalStats d.stats)]

/-- json.Unmarshal into a Data struct, at document level. -/
def unmarshalData (j : JsonVal) : Option CheckpointData :=
  match j with
  | .jobj fs => do
    let platform ← (getField fs "platform").bind asStr
    let st ← (getField fs "start_time").bind asInt
    let lut ← (getField fs "last_update_time").bind asInt
    let pu ← (getField fs "processed_users").bind unmarshalBoolMap
    let pv ← (getField fs "processed_videos").bind unmarshalBoolMap
    let uc ← (getField fs "user_cursors").bind unmarshalStrMap
    let cc ← (getField fs "comment_cursors").bind unmarshalStrMap
    let st2 ← (getField fs "stats").bind unmarshalStats
    some ⟨platform, st, lut, pu, pv, uc, cc, st2⟩
  | _ => none

/-- Save of checkpoint.go, called explicitly with the mutex free: it
stamps LastUpdateTime := now and writes the serialized snapshot; the
resulting file document is returned. -/
def saveFileM (m : Manager) (now : Int) : JsonVal :=
  marshalData { m.data with lastUpdateTime := now }

/-- Load of checkpoint.go on a fresh manager reading an existing file:
parses the document and installs it as the manager's data; a parse
failure is an error (none). -/
def loadManagerM (fresh : Manager) (j : JsonVal) : Option Manager :=
  if !fresh.enabled then some fresh
  else (unmarshalData j).map (fun d => { fresh with data := d })

lemma unmarshalBoolMap_marshal (m : List (String × Bool)) :
    unmarshalBoolMap (marshalBoolMap m) = some m := by
  induction m with
  | nil => rfl
  | cons p rest ih =>
    simp only [marshalBoolMap, List.map_cons, unmarshalBoolMap, decodePairs]
    simp only [marshalBoolMap, unmarshalBoolMap] at ih
    simp [ih, asBool]

lemma unmarshalStrMap_marshal (m : List (String × String)) :
    unmarshalStrMap (marshalStrMap m) = some m := by
  induction m with
  | nil => rfl
  | cons p rest ih =>
    simp only [marshalStrMap, List.map_cons, unmarshalStrMap, decodePairs]
    simp only [marshalStrMap, unmarshalStrMap] at ih
    simp [ih, asStr]

lemma unmarshalStats_marshal (s : Stats) :
    unmarshalStats (marshalStats s) = some s := rfl

lemma unmarshalData_marshal (d : CheckpointData) :
    unmarshalData (marshalData d) = some d := by
  show (do
    let platform ← (getField _ "platform").bind asStr
    let st ← (getField _ "start_time").bind asInt
    let lut ← (getField _ "last_update_time").bind asInt
    let pu ← (getField _ "processed_users").bind unmarshalBoolMap
    let pv ← (getField _ "processed_videos").bind unmarshalBoolMap
    let uc ← (getField _ "user_cursors").bind unmarshalStrMap
    let cc ← (getField _ "comment_cursors").bind unmarshalStrMap
    let st2 ← (getField _ "stats").bind unmarshalStats
    some (⟨platform, st, lut, pu, pv, uc, cc, st2⟩ : CheckpointData)) = some d
  simp only [marshalData, getField, List.find?]
  simp [asStr, asInt, unmarshalBoolMap_marshal, unmarshalStrMap_marshal,
    unmarshalStats_marshal]

/-- C5: Save followed by Load into a fresh enabled manager reading the
same file reproduces identical processed-user and processed-video
sets, identical user and comment cursor maps, and identical counters. -/
theorem checkpoint_save_load_roundtrip (m fresh : Manager) (now : Int)
    (hfresh : fresh.enabled = true) :
    ∃ m2, loadManagerM fresh (saveFileM m now) = some m2 ∧
      m2.data.processedUsers = m.data.processedUsers ∧
      m2.data.processedVideos = m.data.processedVideos ∧
      m2.data.userCursors = m.data.userCursors ∧
      m2.data.commentCursors = m.data.commentCursors ∧
      m2.data.stats = m.data.stats := by
  refine ⟨{ fresh with data := { m.data with lastUpdateTime := now } }, ?_,
    rfl, rfl, rfl, rfl, rfl⟩
  unfold loadManagerM saveFileM
  rw [hfresh]
  simp [unmarshalData_marshal]

/-- Witness for C5 at a concrete populated checkpoint state. -/
theorem checkpoint_save_load_roundtrip_witness :
    ∃ m2, loadManagerM
        (⟨true, 5, ⟨"", 0, 0, [], [], [], [], ⟨0, 0, 0, 0⟩⟩, 0⟩ : Manager)
        (saveFileM
          (⟨true, 5, ⟨"douyin", 3, 4, [("u1", true)], [("v1", true), ("v2", true)],
            [("u1", "c7")], [("v1", "k2")], ⟨1, 2, 5, 1⟩⟩, 9⟩ : Manager) 11) =
        some m2 ∧
      m2.data.processedUsers = [("u1", true)] ∧
      m2.data.processedVideos = [("v1", true), ("v2", true)] ∧
      m2.data.userCursors = [("u1", "c7")] ∧
      m2.data.commentCursors = [("v1", "k2")] ∧
      m2.data.stats = (⟨1, 2, 5, 1⟩ : Stats) := by
  rcases checkpoint_save_load_roundtrip
      (⟨true, 5, ⟨"douyin", 3, 4, [("u1", true)], [("v1", true), ("v2", true)],
        [("u1", "c7")], [("v1", "k2")], ⟨1, 2, 5, 1⟩⟩, 9⟩ : Manager)
      (⟨true, 5, ⟨"", 0, 0, [], [], [], [], ⟨0, 0, 0, 0⟩⟩, 0⟩ : Manager) 11 rfl with
    ⟨m2, hload, h1, h2, h3, h4, h5⟩
  exact ⟨m2, hload, h1, h2, h3, h4, h5⟩

/-! ## Crawl orchestrator (Start / worker of the main file, claim C2)

Start spawns concurrency worker goroutines ranging over the shared
buffered channel urlChannel (capacity = concurrency), sends every seed
ID, closes the channel and waits on the WaitGroup.  The embedding is a
small-step transition system over the observable events with Go's
channel semantics: a send enqueues into the buffer while there is
space, a receive dequeues the buffer head into exactly one live worker
(the worker then processes that seed sequentially), a worker's range
loop exits once the channel is closed and drained, and Start returns
when the WaitGroup count reaches zero — that is, in a final state,
where the channel is closed and no worker remains. -/

structure CrawlState where
  toSend : List String
  buffer : List String
  closed : Bool
  workers : List Nat
  received : List (Nat × String)
deriving DecidableEq, Repr

/-- The state right after Start spawned the workers: all seeds still to
send, channel empty and open, workers 0..concurrency-1 live, nothing
received. -/
def initState (seeds : List String) (concurrency : Nat) : CrawlState :=
  { toSend := seeds
    buffer := []
    closed := false
    workers := List.range concurrency
    received := [] }

/-- One interleaving step of Start's dispatcher and the workers. -/
inductive CStep (cap : Nat) : CrawlState → CrawlState → Prop where
  | send (st : CrawlState) (s : String) (rest : List String) :
      st.toSend = s :: rest →
      st.buffer.length < cap →
      CStep cap st { st with toSend := rest, buffer := st.buffer ++ [s] }
  | close (st : CrawlState) :
      st.toSend = [] →
      st.closed = false →
      CStep cap st { st with closed := true }
  | recv (st : CrawlState) (w : Nat) (s : String) (rest : List String) :
      w ∈ st.workers →
      st.buffer = s :: rest →
      CStep cap st
        { st with buffer := rest, received := st.received ++ [(w, s)] }
  | exit (st : CrawlState) (w : Nat) :
      w ∈ st.workers →
      st.closed = true →
      st.buffer = [] →
      CStep cap st { st with workers := st.workers.erase w }

def Reachable (seeds : List String) (cap : Nat) (st : CrawlState) : Prop :=
  Relation.ReflTransGen (CStep cap) (initState seeds cap) st

/-- Start has returned: the channel is closed and every worker exited. -/
def FinalState (st : CrawlState) : Prop :=
  st.closed = true ∧ st.workers = []

/-- The inductive invariant: the seeds are conserved, in order, across
the not-yet-sent queue, the channel buffer and the receive log; the
channel closes only after the send loop is done; workers exit only
after the close; worker ids are distinct and in range; the last worker
exits only on a drained channel. -/
def CrawlInv (seeds : List String) (cap : Nat) (st : CrawlState) : Prop :=
  seeds = st.received.map Prod.snd ++ st.buffer ++ st.toSend ∧
  (st.closed = true → st.toSend = []) ∧
  (st.closed = false → st.workers = List.range cap) ∧
  (∀ w ∈ st.workers, w < cap) ∧
  st.workers.Nodup ∧
  (st.workers = [] → st.buffer = []) ∧
  (∀ e ∈ st.received, e.1 < cap)

/-- Every step strictly decreases this measure, so every run of the
pool is finite. -/
def measureC (st : CrawlState) : Nat :=
  2 * st.toSend.length + st.buffer.length + st.workers.length +
    (if st.closed then 0 else 1)

lemma crawlInv_init (seeds : List String) (cap : Nat) :
    CrawlInv seeds cap (initState seeds cap) := by
  refine ⟨by simp [initState], ?_, ?_, ?_, ?_, ?_, ?_⟩ <;>
    simp [initState, List.nodup_range]

lemma crawlInv_step (seeds : List String) (cap : Nat) (st st2 : CrawlState)
    (hcap : 1 ≤ cap) (hinv : CrawlInv seeds cap st) (h : CStep cap st st2) :
    CrawlInv seeds cap st2 := by
  rcases hinv with ⟨h1, h2, h3, h4, h5, h6, h7⟩
  cases h with
  | send s rest hts hlen =>
    have hopen : st.closed = false := by
      by_contra hb
      have : st.closed = true := by
        revert hb
        cases st.closed <;> simp
      rw [hts] at h2
      simp [this] at h2
    refine ⟨?_, ?_, ?_, h4, h5, ?_, h7⟩
    · rw [h1, hts]
      simp
    · intro hcl
      simp only at hcl
      rw [hopen] at hcl
      simp at hcl
    · intro _
      exact h3 hopen
    · intro hw
      simp only at hw
      have hr := h3 hopen
      rw [hw] at hr
      have : cap = 0 := by
        have := List.range_eq_nil.mp hr.symm
        exact this
      omega
  | close hts hcl =>
    exact ⟨by simpa using h1, fun _ => hts, by simp, h4, h5, h6, h7⟩
  | recv w s rest hw hb =>
    refine ⟨?_, h2, h3, h4, h5, ?_, ?_⟩
    · rw [h1, hb]
      simp
    · intro hwe
      simp only at hwe
      rw [hwe] at hw
      simp at hw
    · intro e he
      simp only [List.mem_append, List.mem_singleton] at he
      rcases he with he | he
      · exact h7 e he
      · rw [he]
        exact h4 w hw
  | exit w hw hcl hb =>
    refine ⟨h1, h2, ?_, ?_, List.Nodup.erase w h5, fun _ => hb, h7⟩
    · intro hop
      simp only at hop
      rw [hcl] at hop
      simp at hop
    · intro v hv
      exact h4 v (List.mem_of_mem_erase hv)

lemma crawlInv_reachable (seeds : List String) (cap : Nat) (st : CrawlState)
    (hcap : 1 ≤ cap) (h : Reachable seeds cap st) : CrawlInv seeds cap st := by
  induction h with
  | refl => exact crawlInv_init seeds cap
  | tail _ hstep ih => exact crawlInv_step seeds cap _ _ hcap ih hstep

lemma crawl_progress (seeds : List String) (cap : Nat) (st : CrawlState)
    (hcap : 1 ≤ cap) (hinv : CrawlInv seeds cap st)
    (hnf : ¬ FinalState st) : ∃ st2, CStep cap st st2 := by
  rcases hinv with ⟨_, h2, h3, _, _, h6, _⟩
  have hrange : List.range cap ≠ [] := by
    intro h0
    have := List.range_eq_nil.mp h0
    omega
  by_cases hc : st.closed = true
  · rcases hb : st.buffer with _ | ⟨s, rest⟩
    · rcases hw : st.workers with _ | ⟨w, ws⟩
      · exact absurd ⟨hc, hw⟩ hnf
      · exact ⟨_, CStep.exit st w (by rw [hw]; exact List.mem_cons_self w ws) hc hb⟩
    · rcases hw : st.workers with _ | ⟨w, ws⟩
      · have := h6 hw
        rw [hb] at this
        simp at this
      · exact ⟨_, CStep.recv st w s rest (by rw [hw]; exact List.mem_cons_self w ws) hb⟩
  · have hopen : st.closed = false := by
      revert hc
      cases st.closed <;> simp
    rcases hts : st.toSend with _ | ⟨s, rest⟩
    · exact ⟨_, CStep.close st hts hopen⟩
    · by_cases hlen : st.buffer.length < cap
      · exact ⟨_, CStep.send st s rest hts hlen⟩
      · have hwr := h3 hopen
        rcases hb : st.buffer with _ | ⟨s2, rest2⟩
        · rw [hb] at hlen
          simp at hlen
          omega
        · rcases hw : st.workers with _ | ⟨w, ws⟩
          · rw [hw] at hwr
            exact absurd hwr.symm hrange
          · exact ⟨_,
              CStep.recv st w s2 rest2 (by rw [hw]; exact List.mem_cons_self w ws) hb⟩

lemma crawl_step_measure (cap : Nat) (st st2 : CrawlState)
    (h : CStep cap st st2) : measureC st2 < measureC st := by
  cases h with
  | send s rest hts _ =>
    unfold measureC
    simp only [hts]
    simp [List.length_cons]
    omega
  | close hts hcl =>
    unfold measureC
    simp [hcl]
  | recv w s rest hw hb =>
    unfold measureC
    simp only [hb]
    simp
  | exit w hw hcl hb =>
    unfold measureC
    have : (st.workers.erase w).length < st.workers.length := by
      rw [List.length_erase_of_mem hw]
      have : 1 ≤ st.workers.length := List.length_pos.mpr (by
        intro h0
        rw [h0] at hw
        simp at hw)
      omega
    simp only
    omega

lemma length_filter_snd (p : String → Bool) :
    ∀ (l : List (Nat × String)),
      (l.filter (fun e => p e.2)).length = ((l.map Prod.snd).filter p).length := by
  intro l
  induction l with
  | nil => rfl
  | cons x xs ih =>
    by_cases hx : p x.2
    · simp [List.filter_cons, hx, ih]
    · simp [List.filter_cons, hx, ih]

/-- C2: for a finite seed list with distinct IDs and concurrency at
least 1, in every final state of Start's execution (channel closed,
all workers exited, which is when wg.Wait lets Start return) the
receive log lists exactly the seeds, in order: every seed ID was
received and processed by exactly one receive event — hence by exactly
one worker exactly once — and each such event belongs to a real
worker.  Moreover from every reachable non-final state some step is
enabled, and every step strictly decreases a finite measure, so every
maximal execution reaches a final state after finitely many steps:
Start returns, and only after all workers have finished. -/
theorem start_exactly_once_delivery
    (seeds : List String) (cap : Nat) (st : CrawlState)
    (hcap : 1 ≤ cap) (hnd : seeds.Nodup)
    (hreach : Reachable seeds cap st) :
    (FinalState st →
      st.received.map Prod.snd = seeds ∧
      (∀ id ∈ seeds, (st.received.filter (fun e => e.2 == id)).length = 1) ∧
      (∀ e ∈ st.received, e.1 < cap) ∧
      st.workers = []) ∧
    (¬ FinalState st → ∃ st2, CStep cap st st2) ∧
    (∀ st2, CStep cap st st2 → measureC st2 < measureC st) ∧
    measureC (initState seeds cap) = 2 * seeds.length + cap + 1 := by
  have hinv := crawlInv_reachable seeds cap st hcap hreach
  refine ⟨?_, crawl_progress seeds cap st hcap hinv,
    fun st2 h => crawl_step_measure cap st st2 h, by simp [measureC, initState]⟩
  intro hfin
  rcases hinv with ⟨h1, h2, _, _, _, h6, h7⟩
  rcases hfin with ⟨hc, hw⟩
  have hbuf : st.buffer = [] := h6 hw
  have hts : st.toSend = [] := h2 hc
  have hrec : st.received.map Prod.snd = seeds := by
    rw [h1, hbuf, hts]
    simp
  refine ⟨hrec, ?_, h7, hw⟩
  intro id hid
  rw [length_filter_snd (fun s => s == id) st.received, hrec]
  have : (seeds.filter (fun s => s == id)).length = seeds.count id := by
    rw [List.count, List.countP_eq_length_filter]
  rw [this]
  exact List.count_eq_one_of_mem hnd hid

/-- Witness for C2: with seeds u1, u2 and concurrency 2, the initial
state (reached by the empty execution) is not final and a step is
enabled from it. -/
theorem start_exactly_once_delivery_witness :
    ∃ st2, CStep 2 (initState ["u1", "u2"] 2) st2 :=
  (start_exactly_once_delivery ["u1", "u2"] 2 (initState ["u1", "u2"] 2)
    (by decide) (by decide) Relation.ReflTransGen.refl).2.1
    (fun h => absurd h.1 (by decide))

end AgriCrawler
